import Mathlib

/-!
Verification of the resilience core of the github-activity-digest repository:
the backoff-retry engine (src/lib/retry.ts), the single-shot rate-limit
waiter, the result cache (src/lib/cache.ts), the per-repository activity
aggregator and the batched fetch orchestrator (src/lib/github.ts).

The TypeScript code is shallowly embedded: promises and awaits become pure
functions over an explicit stream of attempt outcomes, thrown JS values
become an explicit error type, the file-backed cache becomes an association
list keyed by the cache-key string, and wall-clock time is threaded as an
explicit natural number of milliseconds that advances by each sleep.
-/

/-! ### Error values

A value thrown by the GitHub client.  The retry code distinguishes only
between values that are objects carrying a status property and everything
else, so the embedding collapses all other thrown values into one
constructor carrying a tag that keeps distinct error values distinct.
Header values can be strings or numbers in JS; the remaining-quota check
compares against both the string and the number zero.  The reset and
retry-after headers are modelled after parseInt, as numbers.
-/

inductive HeaderVal where
  | str (s : String)
  | num (n : Nat)
deriving DecidableEq, Repr

inductive JSError where
  | nonObject (tag : Nat)
  | httpError (status : Nat) (remaining : Option HeaderVal)
      (reset : Option Nat) (retryAfter : Option Nat) (tag : Nat)
deriving DecidableEq, Repr

def isZeroRemaining : Option HeaderVal → Bool
  | some (.str "0") => true
  | some (.num 0) => true
  | _ => false

def MAX_RETRIES : Nat := 3

def INITIAL_DELAY : Nat := 1000

def isRateLimitError : JSError → Bool
  | .nonObject _ => false
  | .httpError status remaining _ _ _ =>
    if status = 429 then true
    else if status = 403 then isZeroRemaining remaining
    else false

def getRateLimitResetTime (now : Nat) : JSError → Option Nat
  | .nonObject _ => none
  | .httpError _ _ reset retryAfter _ =>
    match reset with
    | some r => some ((max 0 ((r : Int) * 1000 - (now : Int))).toNat)
    | none =>
      match retryAfter with
      | some ra => some (ra * 1000)
      | none => none

/-- The terminal check of withRetry: status 404 or 401, or a 403 that is not
a rate limit; values without a status property are never terminal. -/
def isTerminal (e : JSError) : Bool :=
  match e with
  | .nonObject _ => false
  | .httpError status _ _ _ _ =>
    status = 404 || status = 401 || (status = 403 && !isRateLimitError e)

/-- One execution of the withRetry loop.  fn gives the outcome of the i-th
invocation of the wrapped operation; attempt is the loop counter, idx the
number of invocations made so far, now the current clock in ms, sleeps the
list of sleep durations performed so far.  Returns the propagated outcome,
the total invocation count and the sleeps, or none if the fuel runs out
(mirroring that a stream of rate-limited failures loops forever). -/
def withRetryGo {α : Type} (fn : Nat → Except JSError α) (maxRetries initialDelay : Nat) :
    Nat → Nat → Nat → List Nat → Nat → Option (Except JSError α × Nat × List Nat)
  | _, _, _, _, 0 => none
  | attempt, idx, now, sleeps, fuel + 1 =>
    match fn idx with
    | .ok v => some (.ok v, idx + 1, sleeps)
    | .error e =>
      match (if isRateLimitError e then getRateLimitResetTime now e else none) with
      | some w =>
        withRetryGo fn maxRetries initialDelay attempt (idx + 1) (now + (w + 1000))
          (sleeps ++ [w + 1000]) fuel
      | none =>
        if isTerminal e then some (.error e, idx + 1, sleeps)
        else if attempt < maxRetries then
          withRetryGo fn maxRetries initialDelay (attempt + 1) (idx + 1)
            (now + initialDelay * 2 ^ attempt) (sleeps ++ [initialDelay * 2 ^ attempt]) fuel
        else some (.error e, idx + 1, sleeps)

def withRetry {α : Type} (fn : Nat → Except JSError α) (maxRetries initialDelay now fuel : Nat) :
    Option (Except JSError α × Nat × List Nat) :=
  withRetryGo fn maxRetries initialDelay 0 0 now [] fuel

/-- The single-shot rate-limit waiter: execute once; on a rate-limited error
with a discoverable wait time, sleep and execute exactly once more; otherwise
propagate.  Returns the outcome, the invocation count and the sleeps. -/
def withRateLimit {α : Type} (fn : Nat → Except JSError α) (now : Nat) :
    Except JSError α × Nat × List Nat :=
  match fn 0 with
  | .ok v => (.ok v, 1, [])
  | .error e =>
    match (if isRateLimitError e then getRateLimitResetTime now e else none) with
    | some w =>
      match fn 1 with
      | .ok v => (.ok v, 2, [w + 1000])
      | .error e2 => (.error e2, 2, [w + 1000])
    | none => (.error e, 1, [])

/-- A rate-limited error has a discoverable wait exactly when a reset or a
retry-after header is present; this is independent of the clock. -/
def hasWaitInfo : JSError → Bool
  | .nonObject _ => false
  | .httpError _ _ reset retryAfter _ => reset.isSome || retryAfter.isSome

/-- Transient classification: neither terminal nor a rate limit with a
discoverable wait (a rate limit without wait information degrades to
transient handling in the loop). -/
def classifiesTransient (e : JSError) : Bool :=
  !(isRateLimitError e && hasWaitInfo e) && !isTerminal e

/-! ### Per-repository activity aggregation (src/lib/github.ts)

The GitHub API calls are abstracted: the list of merged PRs together with
each PR raw commit list and statistics, and the raw commit listing of the
default branch, arrive as inputs; the per-commit statistics call of
getDirectCommits is a function from sha to statistics (its catch branch,
which yields zero statistics, is a possible value of that function).
-/

structure Stats where
  additions : Nat
  deletions : Nat
  changedFiles : Nat
deriving DecidableEq, Repr

def addStats (a b : Stats) : Stats :=
  { additions := a.additions + b.additions
    deletions := a.deletions + b.deletions
    changedFiles := a.changedFiles + b.changedFiles }

structure GitHubCommit where
  sha : String
  message : String
  date : Option String
deriving DecidableEq, Repr

structure PR where
  number : Nat
  title : String
  body : Option String
  merged_at : Option String
  merge_commit_sha : Option String
deriving DecidableEq, Repr

structure PRCommit where
  sha : String
  message : String
  date : Option String
deriving DecidableEq, Repr

structure DirectCommit where
  sha : String
  message : String
  date : Option String
  stats : Stats
deriving DecidableEq, Repr

structure MergedPR where
  number : Nat
  title : String
  body : String
  mergedAt : String
  commits : List PRCommit
  stats : Stats
deriving DecidableEq, Repr

structure RepoActivity where
  mergedPRs : List MergedPR
  directCommits : List DirectCommit
  totalStats : Stats
deriving DecidableEq, Repr

def GITHUB_PAGE_SIZE : Nat := 100

def MAX_DIRECT_COMMITS : Nat := 50

def BATCH_SIZE : Nat := 10

def PR_BODY_MAX_LENGTH : Nat := 500

/-- getPRCommits maps each commit of a PR to a summary whose identifier is
the sha truncated to its first 7 characters. -/
def getPRCommits (commits : List GitHubCommit) : List PRCommit :=
  commits.map fun c => { sha := c.sha.take 7, message := c.message, date := c.date }

/-- getDirectCommits: filter out commits whose message starts with the merge
marker or whose (full) sha is in the merged-PR sha set, cap at
MAX_DIRECT_COMMITS, then attach statistics and truncate the sha to 7
characters. -/
def getDirectCommits (rawCommits : List GitHubCommit) (mergedPRShas : List String)
    (statsFor : String → Stats) : List DirectCommit :=
  let directCommits := rawCommits.filter fun c =>
    !(c.message.startsWith "Merge pull request") && !(mergedPRShas.contains c.sha)
  (directCommits.take MAX_DIRECT_COMMITS).map fun c =>
    { sha := c.sha.take 7, message := c.message, date := c.date, stats := statsFor c.sha }

/-- One merged PR together with its raw commit list (input of getPRCommits)
and its statistics (result of getPRStats). -/
structure PRResult where
  pr : PR
  commits : List GitHubCommit
  stats : Stats
deriving DecidableEq, Repr

/-- The data fetched inside the try block of getRepoActivity, or the error
that escaped it: the merged PRs with their commit lists and statistics, and
the raw default-branch commit listing (none models the null return of
getDirectCommits on an empty or missing repository). -/
structure FetchData where
  prResults : List PRResult
  rawDirect : Option (List GitHubCommit)
deriving DecidableEq, Repr

/-- The exclusion set built by getRepoActivity: for each merged PR, its
synthetic merge-commit sha (full length, when present) and the shas of its
contributing commits as returned by getPRCommits (truncated to 7). -/
def prShasOf (prResults : List PRResult) : List String :=
  prResults.foldl
    (fun acc r =>
      (match r.pr.merge_commit_sha with
       | some s => acc ++ [s]
       | none => acc) ++ (getPRCommits r.commits).map PRCommit.sha)
    []

def emptyActivity : RepoActivity :=
  { mergedPRs := [], directCommits := [], totalStats := ⟨0, 0, 0⟩ }

/-- getRepoActivity: on any error escaping the try block the initial empty
activity is returned; otherwise merged PRs are summarised (body truncated to
PR_BODY_MAX_LENGTH, absent body becomes the empty string), their statistics
folded, and the retained direct commits appended with their statistics. -/
def getRepoActivity (fetched : Except JSError FetchData) (statsFor : String → Stats) :
    RepoActivity :=
  match fetched with
  | .error _ => emptyActivity
  | .ok d =>
    let prShas := prShasOf d.prResults
    let mergedPRs := d.prResults.map fun r =>
      { number := r.pr.number
        title := r.pr.title
        body := (match r.pr.body with
                 | some b => b.take PR_BODY_MAX_LENGTH
                 | none => "")
        mergedAt := r.pr.merged_at.getD ""
        commits := getPRCommits r.commits
        stats := r.stats }
    let prTotal := d.prResults.foldl (fun t r => addStats t r.stats) ⟨0, 0, 0⟩
    match d.rawDirect with
    | none => { mergedPRs := mergedPRs, directCommits := [], totalStats := prTotal }
    | some raw =>
      let direct := getDirectCommits raw prShas statsFor
      { mergedPRs := mergedPRs
        directCommits := direct
        totalStats := direct.foldl (fun t c => addStats t c.stats) prTotal }

/-! ### Batched orchestrator (trackRepositoryActivities) -/

structure Repo where
  full_name : String
deriving DecidableEq, Repr

def repoOwner (full : String) : String := (full.splitOn "/").headD ""

def repoName (full : String) : String := ((full.splitOn "/").drop 1).headD ""

/-- One batch: each repository fetched (concurrently in the source; the
tasks are independent, so the settled results are order-preserving). -/
def processBatch (fetch : String → String → Except JSError FetchData)
    (statsFor : String → Stats) (batch : List Repo) : List (String × RepoActivity) :=
  batch.map fun repo =>
    (repo.full_name,
      getRepoActivity (fetch (repoOwner repo.full_name) (repoName repo.full_name)) statsFor)

/-- The batch loop of trackRepositoryActivities: slices of BATCH_SIZE
repositories, each batch settled before the next one starts. -/
def trackLoop (fetch : String → String → Except JSError FetchData)
    (statsFor : String → Stats) (repos : List Repo) : List (String × RepoActivity) :=
  if h : repos = [] then []
  else
    processBatch fetch statsFor (repos.take BATCH_SIZE) ++
      trackLoop fetch statsFor (repos.drop BATCH_SIZE)
termination_by repos.length
decreasing_by
  simp only [List.length_drop]
  have h1 : 0 < repos.length := List.length_pos.mpr h
  have h2 : 0 < BATCH_SIZE := by decide
  omega

def trackRepositoryActivities (fetch : String → String → Except JSError FetchData)
    (statsFor : String → Stats) (repos : List Repo) : List (String × RepoActivity) :=
  trackLoop fetch statsFor repos

/-! ### Result cache (src/lib/cache.ts)

The on-disk cache directory becomes an association list from the cache key
to the stored entry (each key corresponds to one file).  The sha256
fingerprint of the key material is abstracted as the key material itself
(an injective fingerprint); the date-only part of toISOString is modelled
at its granularity, as the number of whole days since the epoch. -/

def CACHE_TTL : Nat := 1000 * 60 * 30

def MS_PER_DAY : Nat := 86400000

/-- The date-only prefix of toISOString: two instants map to the same string
exactly when they fall in the same calendar day. -/
def isoDateOnly (since : Nat) : String := toString (since / MS_PER_DAY)

def getCacheKey (repos : List Repo) (since : Nat) : String :=
  let repoNames := String.intercalate "," ((repos.map Repo.full_name).mergeSort fun a b => a ≤ b)
  let sinceStr := isoDateOnly since
  repoNames ++ "|" ++ sinceStr

structure CacheEntry where
  data : List (String × RepoActivity)
  timestamp : Nat
  repos : List String
  since : Nat
deriving DecidableEq, Repr

abbrev CacheStore : Type := List (String × CacheEntry)

/-- Lookup: absent file gives a miss; an entry strictly older than the TTL
is deleted and gives a miss; otherwise the stored payload is returned.  The
age is computed over the integers, as in JS arithmetic. -/
def getCachedActivity (store : CacheStore) (repos : List Repo) (since now : Nat) :
    Option (List (String × RepoActivity)) × CacheStore :=
  let key := getCacheKey repos since
  match List.lookup key store with
  | none => (none, store)
  | some entry =>
    let age : Int := (now : Int) - (entry.timestamp : Int)
    if age > (CACHE_TTL : Int) then
      (none, List.eraseP (fun kv => kv.1 == key) store)
    else
      (some entry.data, store)

/-- Store: writing the file for the key replaces any previous entry under
the same key. -/
def setCachedActivity (store : CacheStore) (repos : List Repo) (since now : Nat)
    (data : List (String × RepoActivity)) : CacheStore :=
  let key := getCacheKey repos since
  (key, { data := data, timestamp := now, repos := repos.map Repo.full_name, since := since })
    :: List.eraseP (fun kv => kv.1 == key) store

/-- clearCache deletes every cache file (every stored key has the
activity- prefix and the .json suffix). -/
def clearCache (_store : CacheStore) : CacheStore := []

/-! ### Concrete fixture for the direct-commit deduplication question

A merged PR whose single contributing commit has a full-length sha, and a
raw default-branch listing containing the very same commit (full sha, as
the GitHub listing returns it). -/

/-- A full-length commit sha whose 7-character prefix is aaaaaaa. -/
def dupSha : String := "aaaaaaab2c3d4e5f60718293a4b5c6d7e8f90123"

def dupPR : PR :=
  { number := 1
    title := "Feature"
    body := none
    merged_at := some "2026-01-25T00:00:00Z"
    merge_commit_sha := none }

def dupCommit : GitHubCommit :=
  { sha := dupSha, message := "feat: core", date := none }

def dupFetch : FetchData :=
  { prResults := [{ pr := dupPR
                    commits := [dupCommit]
                    stats := { additions := 1, deletions := 1, changedFiles := 1 } }]
    rawDirect := some [dupCommit] }

def dupActivity : RepoActivity :=
  getRepoActivity (Except.ok dupFetch) (fun _ => { additions := 2, deletions := 2, changedFiles := 2 })

/-! ### Lemmas about the retry engine -/

theorem getRateLimitResetTime_isSome (now : Nat) (e : JSError) :
    (getRateLimitResetTime now e).isSome = hasWaitInfo e := by
  cases e with
  | nonObject t => rfl
  | httpError s rem reset ra t =>
    cases reset with
    | some r => simp [getRateLimitResetTime, hasWaitInfo]
    | none =>
      cases ra with
      | some x => simp [getRateLimitResetTime, hasWaitInfo]
      | none => simp [getRateLimitResetTime, hasWaitInfo]

/-- A transient-classified error takes neither the rate-limit branch nor the
terminal branch of the loop. -/
theorem transient_branches (now : Nat) (e : JSError) (h : classifiesTransient e = true) :
    (if isRateLimitError e then getRateLimitResetTime now e else none) = none ∧
      isTerminal e = false := by
  unfold classifiesTransient at h
  rw [Bool.and_eq_true, Bool.not_eq_true', Bool.not_eq_true'] at h
  obtain ⟨h1, h2⟩ := h
  refine ⟨?_, h2⟩
  by_cases hr : isRateLimitError e
  · rw [if_pos hr]
    rw [Bool.and_eq_false_iff] at h1
    rcases h1 with h1 | h1
    · exact absurd hr (by simp [h1])
    · have := getRateLimitResetTime_isSome now e
      rw [h1] at this
      exact Option.not_isSome_iff_eq_none.mp (by simp [this])
  · rw [if_neg hr]

/-- If every invocation fails with a transient-classified error, the loop
starting at a given attempt counter performs exactly the remaining budget of
invocations and propagates the error of the last one. -/
theorem withRetryGo_transient_all {α : Type} (fn : Nat → Except JSError α)
    (mR iD : Nat) (herr : ∀ i, ∃ e, fn i = Except.error e ∧ classifiesTransient e = true) :
    ∀ fuel attempt idx now sleeps, attempt ≤ mR → mR + 1 - attempt ≤ fuel →
      ∃ e s, fn (idx + (mR - attempt)) = Except.error e ∧
        withRetryGo fn mR iD attempt idx now sleeps fuel
          = some (Except.error e, idx + (mR - attempt) + 1, s) := by
  intro fuel
  induction fuel with
  | zero => intro attempt idx now sleeps ha hf; omega
  | succ fuel ih =>
    intro attempt idx now sleeps ha hf
    obtain ⟨e, he, htr⟩ := herr idx
    obtain ⟨hwait, hterm⟩ := transient_branches now e htr
    by_cases hlt : attempt < mR
    · have step : withRetryGo fn mR iD attempt idx now sleeps (fuel + 1)
          = withRetryGo fn mR iD (attempt + 1) (idx + 1) (now + iD * 2 ^ attempt)
              (sleeps ++ [iD * 2 ^ attempt]) fuel := by
        rw [withRetryGo, he]
        simp [hwait, hterm, hlt]
      obtain ⟨e2, s2, he2, hgo⟩ := ih (attempt + 1) (idx + 1) (now + iD * 2 ^ attempt)
        (sleeps ++ [iD * 2 ^ attempt]) (by omega) (by omega)
      have hidx : idx + 1 + (mR - (attempt + 1)) = idx + (mR - attempt) := by omega
      rw [hidx] at he2 hgo
      exact ⟨e2, s2, he2, by rw [step]; exact hgo⟩
    · have hatt : attempt = mR := by omega
      have hm : mR - attempt = 0 := by omega
      refine ⟨e, sleeps, by rw [hm]; simpa using he, ?_⟩
      rw [withRetryGo, he]
      simp [hwait, hterm, hlt, hm]

/-- Claim C2: for every non-negative maxRetries, positive initialDelay, and
operation failing with a transient-classified error on every invocation,
withRetry performs exactly maxRetries + 1 invocations and propagates the
error observed on the last one. -/
theorem withRetry_transient_exhaustion {α : Type} (fn : Nat → Except JSError α)
    (mR iD now fuel : Nat) (hiD : 0 < iD) (hfuel : mR + 1 ≤ fuel)
    (herr : ∀ i, ∃ e, fn i = Except.error e ∧ classifiesTransient e = true) :
    ∃ e s, fn mR = Except.error e ∧
      withRetry fn mR iD now fuel = some (Except.error e, mR + 1, s) := by
  obtain ⟨e, s, he, hgo⟩ := withRetryGo_transient_all fn mR iD herr fuel 0 0 now []
    (Nat.zero_le mR) (by omega)
  simp only [Nat.zero_add, Nat.sub_zero] at he hgo
  exact ⟨e, s, he, hgo⟩

/-- Witness for C2 at maxRetries 2, initialDelay 10, a stream of plain
(status-free) errors. -/
theorem withRetry_transient_exhaustion_witness :
    ∃ e s, (fun i => (Except.error (JSError.nonObject i) : Except JSError Nat)) 2
        = Except.error e ∧
      withRetry (fun i => (Except.error (JSError.nonObject i) : Except JSError Nat))
        2 10 0 3 = some (Except.error e, 3, s) :=
  withRetry_transient_exhaustion (fun i => Except.error (JSError.nonObject i)) 2 10 0 3
    (by decide) (by decide)
    (fun i => ⟨JSError.nonObject i, rfl, rfl⟩)

/-- Claim C3: a rate-limited failure does not consume a retry slot.  For
every error the code classifies as a rate limit (status 429, or status 403
with a zero remaining-quota header) that carries a discoverable wait w, the
loop sleeps w plus the fixed 1-second margin and re-issues the attempt with
the attempt counter unchanged; consequently an operation failing once with
such an error and then succeeding is invoked exactly twice, for every
maxRetries (including zero).  The wait w is the reset instant (seconds,
times 1000) minus the current time clamped to non-negative when a reset
timestamp is present, and the provider retry-after cooldown ra * 1000 ms
when only a retry-after header is present. -/
theorem withRetry_rateLimited_no_slot {α : Type} (fn : Nat → Except JSError α)
    (mR iD now fuel : Nat) :
    (∀ e w attempt idx m sleeps f, fn idx = Except.error e →
        isRateLimitError e = true → getRateLimitResetTime m e = some w →
        withRetryGo fn mR iD attempt idx m sleeps (f + 1)
          = withRetryGo fn mR iD attempt (idx + 1) (m + (w + 1000))
              (sleeps ++ [w + 1000]) f)
  ∧ (∀ e w v, fn 0 = Except.error e → isRateLimitError e = true →
        getRateLimitResetTime now e = some w → fn 1 = Except.ok v → 2 ≤ fuel →
        withRetry fn mR iD now fuel = some (Except.ok v, 2, [w + 1000]))
  ∧ (∀ (s2 : Nat) (rem2 : Option HeaderVal) (r2 : Nat) (ra2 : Option Nat) (t2 m : Nat),
        getRateLimitResetTime m (JSError.httpError s2 rem2 (some r2) ra2 t2)
          = some ((max 0 ((r2 : Int) * 1000 - (m : Int))).toNat))
  ∧ (∀ (s2 : Nat) (rem2 : Option HeaderVal) (ra2 t2 m : Nat),
        getRateLimitResetTime m (JSError.httpError s2 rem2 none (some ra2) t2)
          = some (ra2 * 1000)) := by
  refine ⟨?_, ?_, ?_, ?_⟩
  · intro e w attempt idx m sleeps f hfe hrl hres
    rw [withRetryGo, hfe]
    simp only [hrl, if_true, hres]
  · intro e w v h0 hrl hres h1 hfuel
    obtain ⟨f, rfl⟩ : ∃ f, fuel = f + 2 := ⟨fuel - 2, by omega⟩
    rw [withRetry, withRetryGo, h0]
    simp only [hrl, if_true, hres]
    rw [withRetryGo, h1]
    simp
  · intro s2 rem2 r2 ra2 t2 m
    rfl
  · intro s2 rem2 ra2 t2 m
    simp [getRateLimitResetTime]

/-- Witness for C3: a 403 whose remaining-quota header is the string zero,
carrying no reset timestamp but a 60-second retry-after cooldown; with
maxRetries 0 the operation still completes after exactly two invocations,
with one sleep of 60000 + 1000 ms. -/
theorem withRetry_rateLimited_no_slot_witness :
    withRetry
        (fun i => if i = 0
          then (Except.error (JSError.httpError 403 (some (.str "0")) none (some 60) 0)
            : Except JSError Nat)
          else Except.ok 7)
        0 1000 0 2
      = some (Except.ok 7, 2, [61000]) := by
  have h := (withRetry_rateLimited_no_slot
    (fun i => if i = 0
      then (Except.error (JSError.httpError 403 (some (.str "0")) none (some 60) 0)
        : Except JSError Nat)
      else Except.ok 7)
    0 1000 0 2).2.1
    (JSError.httpError 403 (some (.str "0")) none (some 60) 0) 60000 7
    rfl (by decide) (by decide) rfl (by decide)
  simpa using h

/-- Claim C4: an error classified terminal (status 404, status 401, or a
403 whose remaining-quota header is not zero) is propagated after exactly
one invocation, with no backoff sleep, for every maxRetries. -/
theorem withRetry_terminal_once {α : Type} (fn : Nat → Except JSError α)
    (mR iD now fuel s : Nat) (rem : Option HeaderVal) (reset ra : Option Nat) (tag : Nat)
    (h0 : fn 0 = Except.error (JSError.httpError s rem reset ra tag))
    (hs : s = 404 ∨ s = 401 ∨ (s = 403 ∧ isZeroRemaining rem = false))
    (hfuel : 1 ≤ fuel) :
    withRetry fn mR iD now fuel
      = some (Except.error (JSError.httpError s rem reset ra tag), 1, []) := by
  obtain ⟨f, rfl⟩ : ∃ f, fuel = f + 1 := ⟨fuel - 1, by omega⟩
  have hrl : isRateLimitError (JSError.httpError s rem reset ra tag) = false := by
    rcases hs with rfl | rfl | ⟨rfl, hrem⟩ <;> simp [isRateLimitError, *]
  have hterm : isTerminal (JSError.httpError s rem reset ra tag) = true := by
    rcases hs with rfl | rfl | ⟨rfl, hrem⟩ <;> simp [isTerminal, hrl]
  rw [withRetry, withRetryGo, h0]
  simp [hrl, hterm]

/-- Witness for C4: a permission-denied 403 with a non-zero remaining
quota, maxRetries 5, is invoked once and propagated with no sleeps. -/
theorem withRetry_terminal_once_witness :
    withRetry
        (fun _ => (Except.error
          (JSError.httpError 403 (some (.str "41")) none none 3) : Except JSError Nat))
        5 1000 0 6
      = some (Except.error (JSError.httpError 403 (some (.str "41")) none none 3), 1, []) :=
  withRetry_terminal_once
    (fun _ => Except.error (JSError.httpError 403 (some (.str "41")) none none 3))
    5 1000 0 6 403 (some (.str "41")) none none 3 rfl
    (Or.inr (Or.inr ⟨rfl, by decide⟩)) (by decide)

/-- Claim C9: the single-shot waiter executes the operation once; on a
rate-limited failure with a discoverable wait it sleeps and executes exactly
once more, propagating the outcome of that second invocation; any
non-rate-limited error, or a rate-limited error with no discoverable wait,
is propagated immediately after the single invocation; the operation is
never invoked more than twice. -/
theorem withRateLimit_at_most_twice {α : Type} (fn : Nat → Except JSError α) (now : Nat) :
    (∀ v, fn 0 = Except.ok v → withRateLimit fn now = (Except.ok v, 1, []))
  ∧ (∀ e w v, fn 0 = Except.error e → isRateLimitError e = true →
      getRateLimitResetTime now e = some w → fn 1 = Except.ok v →
      withRateLimit fn now = (Except.ok v, 2, [w + 1000]))
  ∧ (∀ e w e2, fn 0 = Except.error e → isRateLimitError e = true →
      getRateLimitResetTime now e = some w → fn 1 = Except.error e2 →
      withRateLimit fn now = (Except.error e2, 2, [w + 1000]))
  ∧ (∀ e, fn 0 = Except.error e →
      (isRateLimitError e = false ∨ getRateLimitResetTime now e = none) →
      withRateLimit fn now = (Except.error e, 1, []))
  ∧ (withRateLimit fn now).2.1 ≤ 2 := by
  refine ⟨?_, ?_, ?_, ?_, ?_⟩
  · intro v h0
    rw [withRateLimit, h0]
  · intro e w v h0 hrl hres h1
    rw [withRateLimit, h0]
    simp only [hrl, if_true, hres]
    rw [h1]
  · intro e w e2 h0 hrl hres h1
    rw [withRateLimit, h0]
    simp only [hrl, if_true, hres]
    rw [h1]
  · intro e h0 hcase
    rw [withRateLimit, h0]
    rcases hcase with hc | hc
    · simp [hc]
    · by_cases hrl : isRateLimitError e <;> simp [hrl, hc]
  · rw [withRateLimit]
    cases h0 : fn 0 with
    | ok v => simp
    | error e =>
      cases hw : (if isRateLimitError e then getRateLimitResetTime now e else none) with
      | none => simp [hw]
      | some w => cases h1 : fn 1 <;> simp [hw, h1]

/-- Witness for C9: one rate-limited failure with reset one second after
the epoch, then success; two invocations and a 2000 ms sleep. -/
theorem withRateLimit_at_most_twice_witness :
    withRateLimit
        (fun i => if i = 0
          then (Except.error (JSError.httpError 429 (some (.str "0")) (some 1) none 0)
            : Except JSError Nat)
          else Except.ok 7)
        0
      = (Except.ok 7, 2, [2000]) := by
  have h := (withRateLimit_at_most_twice
    (fun i => if i = 0
      then (Except.error (JSError.httpError 429 (some (.str "0")) (some 1) none 0)
        : Except JSError Nat)
      else Except.ok 7) 0).2.1
    (JSError.httpError 429 (some (.str "0")) (some 1) none 0) 1000 7
    rfl rfl (by decide) rfl
  simpa using h

/-- Every invocation of fn that fails does so with a plain (status-free)
value: such a stream keeps withRetry inside the transient discipline. -/
theorem withRetryGo_transient_bound {α : Type} (fn : Nat → Except JSError α) (mR iD : Nat)
    (htr : ∀ i e, fn i = Except.error e → classifiesTransient e = true) :
    ∀ fuel attempt idx now sleeps, attempt ≤ mR → mR + 1 - attempt ≤ fuel →
      ∃ r cnt s, withRetryGo fn mR iD attempt idx now sleeps fuel = some (r, cnt, s) ∧
        cnt ≤ idx + (mR - attempt) + 1 := by
  intro fuel
  induction fuel with
  | zero => intro attempt idx now sleeps ha hf; omega
  | succ fuel ih =>
    intro attempt idx now sleeps ha hf
    cases hfe : fn idx with
    | ok v =>
      refine ⟨Except.ok v, idx + 1, sleeps, ?_, by omega⟩
      rw [withRetryGo, hfe]
    | error e =>
      obtain ⟨hwait, hterm⟩ := transient_branches now e (htr idx e hfe)
      by_cases hlt : attempt < mR
      · have step : withRetryGo fn mR iD attempt idx now sleeps (fuel + 1)
            = withRetryGo fn mR iD (attempt + 1) (idx + 1) (now + iD * 2 ^ attempt)
                (sleeps ++ [iD * 2 ^ attempt]) fuel := by
          rw [withRetryGo, hfe]
          simp [hwait, hterm, hlt]
        obtain ⟨r2, cnt2, s2, hgo, hle⟩ := ih (attempt + 1) (idx + 1) (now + iD * 2 ^ attempt)
          (sleeps ++ [iD * 2 ^ attempt]) (by omega) (by omega)
        exact ⟨r2, cnt2, s2, by rw [step]; exact hgo, by omega⟩
      · refine ⟨Except.error e, idx + 1, sleeps, ?_, by omega⟩
        rw [withRetryGo, hfe]
        simp [hwait, hterm, hlt]

/-- Claim C10: a thrown value that is not an object carrying a status
property is classified transient: it is never a rate-limit (no wait is ever
computed for it) and never terminal; when such a failure occurs with budget
left, the very next step consumes one retry slot and sleeps the exponential
backoff delay; and an operation whose failures are all of this shape drives
withRetry to a settled outcome after at most maxRetries + 1 invocations. -/
theorem withRetry_nonstatus_transient {α : Type} (fn : Nat → Except JSError α)
    (mR iD now fuel : Nat)
    (hall : ∀ i e, fn i = Except.error e → ∃ t, e = JSError.nonObject t)
    (hfuel : mR + 1 ≤ fuel) :
    (∀ t, isRateLimitError (JSError.nonObject t) = false
        ∧ isTerminal (JSError.nonObject t) = false
        ∧ ∀ m, getRateLimitResetTime m (JSError.nonObject t) = none)
  ∧ (∀ t attempt idx m sleeps f2, fn idx = Except.error (JSError.nonObject t) →
      attempt < mR →
      withRetryGo fn mR iD attempt idx m sleeps (f2 + 1)
        = withRetryGo fn mR iD (attempt + 1) (idx + 1) (m + iD * 2 ^ attempt)
            (sleeps ++ [iD * 2 ^ attempt]) f2)
  ∧ ∃ res cnt s, withRetry fn mR iD now fuel = some (res, cnt, s) ∧ cnt ≤ mR + 1 := by
  refine ⟨?_, ?_, ?_⟩
  · intro t
    exact ⟨rfl, rfl, fun m => rfl⟩
  · intro t attempt idx m sleeps f2 hfe hlt
    rw [withRetryGo, hfe]
    simp [isRateLimitError, isTerminal, hlt]
  · have htr : ∀ i e, fn i = Except.error e → classifiesTransient e = true := by
      intro i e hfe
      obtain ⟨t, rfl⟩ := hall i e hfe
      rfl
    obtain ⟨r, cnt, s, hgo, hle⟩ := withRetryGo_transient_bound fn mR iD htr fuel 0 0 now []
      (Nat.zero_le mR) (by omega)
    exact ⟨r, cnt, s, hgo, by simpa using hle⟩

/-- Witness for C10: one plain failure then success under maxRetries 3. -/
theorem withRetry_nonstatus_transient_witness :
    (∀ t, isRateLimitError (JSError.nonObject t) = false
        ∧ isTerminal (JSError.nonObject t) = false
        ∧ ∀ m, getRateLimitResetTime m (JSError.nonObject t) = none)
  ∧ (∀ t attempt idx m sleeps f2,
      (fun i => if i = 0
        then (Except.error (JSError.nonObject 5) : Except JSError Nat)
        else Except.ok 1) idx = Except.error (JSError.nonObject t) →
      attempt < 3 →
      withRetryGo (fun i => if i = 0
          then (Except.error (JSError.nonObject 5) : Except JSError Nat)
          else Except.ok 1) 3 100 attempt idx m sleeps (f2 + 1)
        = withRetryGo (fun i => if i = 0
            then (Except.error (JSError.nonObject 5) : Except JSError Nat)
            else Except.ok 1) 3 100 (attempt + 1) (idx + 1) (m + 100 * 2 ^ attempt)
            (sleeps ++ [100 * 2 ^ attempt]) f2)
  ∧ ∃ res cnt s,
      withRetry (fun i => if i = 0
          then (Except.error (JSError.nonObject 5) : Except JSError Nat)
          else Except.ok 1) 3 100 0 4 = some (res, cnt, s) ∧ cnt ≤ 4 :=
  withRetry_nonstatus_transient
    (fun i => if i = 0
      then (Except.error (JSError.nonObject 5) : Except JSError Nat)
      else Except.ok 1)
    3 100 0 4
    (fun i e hfe => by
      by_cases hi : i = 0
      · subst hi
        exact ⟨5, by simpa using hfe.symm⟩
      · simp [hi] at hfe)
    (by decide)

/-! ### Aggregator theorems -/

/-- Folding PR statistics into a running total adds componentwise. -/
theorem foldl_addStats_pr (l : List PRResult) (init : Stats) :
    l.foldl (fun t r => addStats t r.stats) init
      = { additions := init.additions + (l.map fun r => r.stats.additions).sum
          deletions := init.deletions + (l.map fun r => r.stats.deletions).sum
          changedFiles := init.changedFiles + (l.map fun r => r.stats.changedFiles).sum } := by
  induction l generalizing init with
  | nil => cases init; simp
  | cons a tl ih =>
    rw [List.foldl_cons, ih]
    cases init
    simp only [addStats, List.map_cons, List.sum_cons, Stats.mk.injEq]
    refine ⟨by omega, by omega, by omega⟩

/-- Folding direct-commit statistics into a running total adds componentwise. -/
theorem foldl_addStats_direct (l : List DirectCommit) (init : Stats) :
    l.foldl (fun t c => addStats t c.stats) init
      = { additions := init.additions + (l.map fun c => c.stats.additions).sum
          deletions := init.deletions + (l.map fun c => c.stats.deletions).sum
          changedFiles := init.changedFiles + (l.map fun c => c.stats.changedFiles).sum } := by
  induction l generalizing init with
  | nil => cases init; simp
  | cons a tl ih =>
    rw [List.foldl_cons, ih]
    cases init
    simp only [addStats, List.map_cons, List.sum_cons, Stats.mk.injEq]
    refine ⟨by omega, by omega, by omega⟩

/-- Claim C8: in every aggregate produced by getRepoActivity, the folded
total equals the sum over the merged PRs plus the sum over the retained
direct commits, componentwise for additions, deletions and changed files. -/
theorem getRepoActivity_totals (fetched : Except JSError FetchData)
    (statsFor : String → Stats) :
    (getRepoActivity fetched statsFor).totalStats.additions
        = ((getRepoActivity fetched statsFor).mergedPRs.map fun p => p.stats.additions).sum
          + ((getRepoActivity fetched statsFor).directCommits.map fun c => c.stats.additions).sum
  ∧ (getRepoActivity fetched statsFor).totalStats.deletions
        = ((getRepoActivity fetched statsFor).mergedPRs.map fun p => p.stats.deletions).sum
          + ((getRepoActivity fetched statsFor).directCommits.map fun c => c.stats.deletions).sum
  ∧ (getRepoActivity fetched statsFor).totalStats.changedFiles
        = ((getRepoActivity fetched statsFor).mergedPRs.map fun p => p.stats.changedFiles).sum
          + ((getRepoActivity fetched statsFor).directCommits.map fun c => c.stats.changedFiles).sum := by
  cases fetched with
  | error e => simp [getRepoActivity, emptyActivity]
  | ok d =>
    cases hd : d.rawDirect with
    | none =>
      simp only [getRepoActivity, hd]
      rw [foldl_addStats_pr]
      simp [List.map_map, Function.comp_def]
    | some raw =>
      simp only [getRepoActivity, hd]
      rw [foldl_addStats_direct, foldl_addStats_pr]
      simp [List.map_map, Function.comp_def]

/-- Claim C1 is refuted on the code: in the aggregate built from dupFetch,
the direct-commit sequence contains an entry whose identifier equals the
identifier of a contributing commit of a merged PR.  The exclusion set
stores contributing-commit identifiers truncated to 7 characters while the
raw direct commits are filtered by their full-length identifiers, so the
membership test never fires for contributing commits. -/
theorem getDirectCommits_dedup_gap :
    ∃ d ∈ dupActivity.directCommits, ∃ m ∈ dupActivity.mergedPRs,
      ∃ c ∈ m.commits, d.sha = c.sha := by decide

/-! ### Orchestrator theorems -/

/-- Looking up a key in a keyed map of repositories with pairwise-distinct
names finds the image of that repository. -/
theorem lookup_keyed_map {β : Type} (g : Repo → β) :
    ∀ (repos : List Repo), (repos.map Repo.full_name).Nodup →
      ∀ r ∈ repos,
        List.lookup r.full_name (repos.map fun x => (x.full_name, g x)) = some (g r) := by
  intro repos
  induction repos with
  | nil => intro _ r hr; cases hr
  | cons a tl ih =>
    intro hnd r hr
    simp only [List.map_cons, List.nodup_cons] at hnd
    obtain ⟨hna, hntl⟩ := hnd
    rcases List.mem_cons.mp hr with rfl | htl
    · simp [List.lookup]
    · have hne : (r.full_name == a.full_name) = false := by
        refine beq_eq_false_iff_ne.mpr ?_
        intro hcontra
        exact hna (hcontra ▸ List.mem_map_of_mem Repo.full_name htl)
      simp only [List.map_cons, List.lookup, hne]
      exact ih hntl r htl

/-- The batch loop processes exactly the repository list, batch slicing
notwithstanding: it equals one map over the whole input. -/
theorem trackLoop_eq_processBatch (fetch : String → String → Except JSError FetchData)
    (statsFor : String → Stats) :
    ∀ (n : Nat) (repos : List Repo), repos.length ≤ n →
      trackLoop fetch statsFor repos = processBatch fetch statsFor repos := by
  intro n
  induction n with
  | zero =>
    intro repos h
    have he : repos = [] := List.length_eq_zero.mp (Nat.le_zero.mp h)
    subst he
    rw [trackLoop]
    simp [processBatch]
  | succ n ih =>
    intro repos h
    rw [trackLoop]
    by_cases he : repos = []
    · simp [he, processBatch]
    · rw [dif_neg he]
      have hlen : (repos.drop BATCH_SIZE).length ≤ n := by
        have h1 : 0 < repos.length := List.length_pos.mpr he
        have h2 : 0 < BATCH_SIZE := by decide
        simp only [List.length_drop]
        omega
      rw [ih (repos.drop BATCH_SIZE) hlen]
      unfold processBatch
      rw [← List.map_append, List.take_append_drop]

/-- Claim C5: for a repository list with pairwise-distinct identifiers, the
orchestrator (a total function, so no error can propagate) produces an
entry for every requested repository; a repository whose fetch fails
contributes the empty aggregate, and every other entry is exactly the
aggregate built from its fetched data. -/
theorem trackRepositoryActivities_isolation
    (fetch : String → String → Except JSError FetchData) (statsFor : String → Stats)
    (repos : List Repo) (hnd : (repos.map Repo.full_name).Nodup) :
    ∀ r ∈ repos,
      List.lookup r.full_name (trackRepositoryActivities fetch statsFor repos)
          = some (getRepoActivity (fetch (repoOwner r.full_name) (repoName r.full_name)) statsFor)
        ∧ ∀ e, fetch (repoOwner r.full_name) (repoName r.full_name) = Except.error e →
            List.lookup r.full_name (trackRepositoryActivities fetch statsFor repos)
              = some emptyActivity := by
  intro r hr
  have hmap : trackRepositoryActivities fetch statsFor repos
      = repos.map fun x => (x.full_name,
          getRepoActivity (fetch (repoOwner x.full_name) (repoName x.full_name)) statsFor) := by
    rw [trackRepositoryActivities,
      trackLoop_eq_processBatch fetch statsFor repos.length repos le_rfl]
    rfl
  constructor
  · rw [hmap]
    exact lookup_keyed_map _ repos hnd r hr
  · intro e he
    rw [hmap, lookup_keyed_map _ repos hnd r hr, he]
    rfl

/-- Witness for C5: three repositories whose fetches all fail with a
terminal not-found; every repository keeps an entry and the failing fetch
yields the empty aggregate. -/
theorem trackRepositoryActivities_isolation_witness :
    List.lookup "o/gone"
        (trackRepositoryActivities
          (fun _ _ => Except.error (JSError.httpError 404 none none none 0))
          (fun _ => { additions := 0, deletions := 0, changedFiles := 0 })
          [Repo.mk "o/a", Repo.mk "o/gone", Repo.mk "o/c"])
      = some emptyActivity
  ∧ List.lookup "o/a"
        (trackRepositoryActivities
          (fun _ _ => Except.error (JSError.httpError 404 none none none 0))
          (fun _ => { additions := 0, deletions := 0, changedFiles := 0 })
          [Repo.mk "o/a", Repo.mk "o/gone", Repo.mk "o/c"])
      = some (getRepoActivity
          (Except.error (JSError.httpError 404 none none none 0))
          (fun _ => { additions := 0, deletions := 0, changedFiles := 0 })) := by
  have h := trackRepositoryActivities_isolation
    (fun _ _ => Except.error (JSError.httpError 404 none none none 0))
    (fun _ => { additions := 0, deletions := 0, changedFiles := 0 })
    [Repo.mk "o/a", Repo.mk "o/gone", Repo.mk "o/c"]
    (by decide)
  exact ⟨(h (Repo.mk "o/gone") (by simp)).2
      (JSError.httpError 404 none none none 0) rfl,
    (h (Repo.mk "o/a") (by simp)).1⟩

/-! ### Cache theorems -/

/-- Sorting two permuted string lists yields the same list. -/
theorem mergeSort_congr_perm {l1 l2 : List String} (h : l1.Perm l2) :
    (l1.mergeSort fun a b => a ≤ b) = (l2.mergeSort fun a b => a ≤ b) :=
  List.eq_of_perm_of_sorted
    ((List.mergeSort_perm l1 _).trans (h.trans (List.mergeSort_perm l2 _).symm))
    (List.sorted_mergeSort' l1) (List.sorted_mergeSort' l2)

/-- Two lookups with permuted repository lists and window starts on the same
calendar day derive the same cache key. -/
theorem getCacheKey_perm (R R2 : List Repo) (D D2 : Nat)
    (hperm : (R2.map Repo.full_name).Perm (R.map Repo.full_name))
    (hdate : D2 / MS_PER_DAY = D / MS_PER_DAY) :
    getCacheKey R2 D2 = getCacheKey R D := by
  unfold getCacheKey isoDateOnly
  rw [hdate, mergeSort_congr_perm hperm]

/-- A key absent from the key column is absent from the lookup. -/
theorem lookup_eq_none_of_not_mem {β : Type} (k : String) :
    ∀ (l : List (String × β)), k ∉ l.map Prod.fst → List.lookup k l = none := by
  intro l
  induction l with
  | nil => intro _; rfl
  | cons a tl ih =>
    intro hk
    simp only [List.map_cons, List.mem_cons] at hk
    push_neg at hk
    obtain ⟨hka, hktl⟩ := hk
    have hne : (k == a.1) = false := beq_eq_false_iff_ne.mpr hka
    simp only [List.lookup, hne]
    exact ih hktl

/-- Under pairwise-distinct keys, erasing the entry of a key removes it from
lookup entirely. -/
theorem lookup_eraseP_self {β : Type} (k : String) :
    ∀ (l : List (String × β)), (l.map Prod.fst).Nodup →
      List.lookup k (List.eraseP (fun kv => kv.1 == k) l) = none := by
  intro l
  induction l with
  | nil => intro _; rfl
  | cons a tl ih =>
    intro hnd
    simp only [List.map_cons, List.nodup_cons] at hnd
    obtain ⟨hna, hntl⟩ := hnd
    rw [List.eraseP_cons]
    by_cases ha : a.1 = k
    · simp only [ha, beq_self_eq_true, if_true]
      subst ha
      exact lookup_eq_none_of_not_mem a.1 tl hna
    · have hne : (a.1 == k) = false := beq_eq_false_iff_ne.mpr ha
      have hne2 : (k == a.1) = false := beq_eq_false_iff_ne.mpr (fun hc => ha hc.symm)
      simp only [hne, if_false, Bool.false_eq_true, List.lookup, hne2]
      exact ih hntl

/-- Claim C6 (amended): an entry found under the derived key is returned as
long as its age does not strictly exceed the 30-minute TTL (in particular
at exactly 30 minutes it is still returned); as soon as the age strictly
exceeds the TTL, the lookup misses and the entry is purged from the store. -/
theorem getCachedActivity_ttl_boundary (store : CacheStore) (repos : List Repo)
    (since now : Nat) (entry : CacheEntry)
    (hnd : (store.map Prod.fst).Nodup)
    (hfound : List.lookup (getCacheKey repos since) store = some entry) :
    ((now : Int) - (entry.timestamp : Int) > (CACHE_TTL : Int) →
        (getCachedActivity store repos since now).1 = none
      ∧ List.lookup (getCacheKey repos since) (getCachedActivity store repos since now).2
          = none)
  ∧ (¬((now : Int) - (entry.timestamp : Int) > (CACHE_TTL : Int)) →
        (getCachedActivity store repos since now).1 = some entry.data) := by
  constructor
  · intro hage
    simp only [getCachedActivity, hfound, hage, if_true]
    exact ⟨trivial, lookup_eraseP_self _ store hnd⟩
  · intro hage
    simp only [getCachedActivity, hfound]
    simp [hage]

/-- Witness for C6 (amended): a singleton store holding one entry written at
time 0, probed at exactly the TTL and beyond it. -/
theorem getCachedActivity_ttl_boundary_witness :
    (((CACHE_TTL : Nat) : Int) - ((0 : Nat) : Int) > (CACHE_TTL : Int) →
        (getCachedActivity
            [(getCacheKey [Repo.mk "o/r"] 0,
              { data := [], timestamp := 0, repos := ["o/r"], since := 0 })]
            [Repo.mk "o/r"] 0 CACHE_TTL).1 = none
      ∧ List.lookup (getCacheKey [Repo.mk "o/r"] 0)
            (getCachedActivity
              [(getCacheKey [Repo.mk "o/r"] 0,
                { data := [], timestamp := 0, repos := ["o/r"], since := 0 })]
              [Repo.mk "o/r"] 0 CACHE_TTL).2 = none)
  ∧ (¬(((CACHE_TTL : Nat) : Int) - ((0 : Nat) : Int) > (CACHE_TTL : Int)) →
        (getCachedActivity
            [(getCacheKey [Repo.mk "o/r"] 0,
              { data := [], timestamp := 0, repos := ["o/r"], since := 0 })]
            [Repo.mk "o/r"] 0 CACHE_TTL).1
          = some ({ data := [], timestamp := 0, repos := ["o/r"],
                    since := 0 } : CacheEntry).data) :=
  getCachedActivity_ttl_boundary
    [(getCacheKey [Repo.mk "o/r"] 0,
      { data := [], timestamp := 0, repos := ["o/r"], since := 0 })]
    [Repo.mk "o/r"] 0 CACHE_TTL
    { data := [], timestamp := 0, repos := ["o/r"], since := 0 }
    (by simp)
    (by simp [List.lookup])

/-- Claim C6 as stated is refuted at the boundary: an entry probed at an age
of exactly 30 minutes (not strictly less than the TTL) is still returned
rather than treated as absent. -/
theorem getCachedActivity_ttl_boundary_cex :
    ¬(((CACHE_TTL : Nat) : Int) - ((0 : Nat) : Int) < (CACHE_TTL : Int))
  ∧ (getCachedActivity
        [(getCacheKey [Repo.mk "o/r"] 0,
          { data := [], timestamp := 0, repos := ["o/r"], since := 0 })]
        [Repo.mk "o/r"] 0 CACHE_TTL).1
      = some [] := by
  refine ⟨by simp, ?_⟩
  unfold getCachedActivity
  simp [List.lookup]

/-- Claim C7: storing under a repository list and window start and looking
up within the TTL with any permutation of that list and any instant of the
same calendar day returns the stored aggregate; a lookup whose derived key
differs (an unrelated repository set or date) misses on a store holding
only that entry; and after clearCache every lookup misses. -/
theorem cache_roundtrip_perm (store : CacheStore) (R R2 : List Repo)
    (D D2 now now2 : Nat) (A : List (String × RepoActivity))
    (hperm : (R2.map Repo.full_name).Perm (R.map Repo.full_name))
    (hdate : D2 / MS_PER_DAY = D / MS_PER_DAY)
    (httl : (now2 : Int) - (now : Int) ≤ (CACHE_TTL : Int)) :
    (getCachedActivity (setCachedActivity store R D now A) R2 D2 now2).1 = some A
  ∧ (∀ R3 D3 now3, getCacheKey R3 D3 ≠ getCacheKey R D →
      (getCachedActivity (setCachedActivity [] R D now A) R3 D3 now3).1 = none)
  ∧ (∀ R3 D3 now3,
      (getCachedActivity (clearCache (setCachedActivity store R D now A)) R3 D3 now3).1
        = none) := by
  have hkey := getCacheKey_perm R R2 D D2 hperm hdate
  refine ⟨?_, ?_, ?_⟩
  · simp only [getCachedActivity, setCachedActivity, hkey, List.lookup, beq_self_eq_true]
    have hle : ¬((now2 : Int) - (now : Int) > (CACHE_TTL : Int)) := by omega
    simp [hle]
  · intro R3 D3 now3 hne
    have hbeq : (getCacheKey R3 D3 == getCacheKey R D) = false := beq_eq_false_iff_ne.mpr hne
    simp only [getCachedActivity, setCachedActivity, List.lookup, hbeq, List.eraseP_nil]
  · intro R3 D3 now3
    rfl

/-- Witness for C7: two repositories stored in one order, looked up in the
other at a window start 5 ms later on the same day and at an age of exactly
the TTL. -/
theorem cache_roundtrip_perm_witness :
    (getCachedActivity
        (setCachedActivity [] [Repo.mk "o/b", Repo.mk "o/a"] 0 0 [])
        [Repo.mk "o/a", Repo.mk "o/b"] 5 CACHE_TTL).1 = some []
  ∧ (∀ R3 D3 now3, getCacheKey R3 D3 ≠ getCacheKey [Repo.mk "o/b", Repo.mk "o/a"] 0 →
      (getCachedActivity
        (setCachedActivity [] [Repo.mk "o/b", Repo.mk "o/a"] 0 0 []) R3 D3 now3).1 = none)
  ∧ (∀ R3 D3 now3,
      (getCachedActivity
        (clearCache (setCachedActivity [] [Repo.mk "o/b", Repo.mk "o/a"] 0 0 []))
        R3 D3 now3).1 = none) :=
  cache_roundtrip_perm [] [Repo.mk "o/b", Repo.mk "o/a"] [Repo.mk "o/a", Repo.mk "o/b"]
    0 5 0 CACHE_TTL []
    (List.Perm.swap "o/b" "o/a" [])
    (by decide)
    (by decide)
